import Mathlib

/-!
Verification of the tensor-store operations of the scientific-computation MCP
server (`src/src/server.py`, with the identical tool definitions in
`src/src/main.py`).

Modelling conventions:
* Python floats are modelled by their exact rational values (`ℚ`); every IEEE
  double is an exact rational, and the operations verified here only store and
  retrieve values, so no rounding is involved.
* `np.prod` over the `int`-coerced shape list is modelled as the exact integer
  product.
* The global dict `tensor_store` is modelled as an association list with
  Python-dict semantics: updating an existing key replaces its value in place,
  inserting a new key appends at the end (so `dict.keys()` ordering is
  insertion order), and the structure's keys are unique in every reachable
  state.
* Raising an exception before any mutation is modelled by the operation
  returning the error together with the unchanged store.
-/

namespace SciComp

/-- A stored NumPy array: its shape and its row-major flattened values.
`np.array(values).reshape(shape)` stores exactly the flat `values` in C order,
so the flattened view of the stored array is the input list. -/
structure Tensor where
  shape : List Int
  values : List ℚ
deriving DecidableEq, Repr

/-- The error outcomes of the tensor-store operations, named as in the spec:
* `shapeMismatch` is `ValueError("Shape does not match number of values.")`
  raised by `create_tensor`;
* `reshapeError` is the `ValueError` raised inside `np.reshape`;
* `invalidShape` is the spec's `InvalidShape` error class (introduced here so
  that statements about it can be expressed; see which operations produce it);
* `notFound` is the `KeyError` of `tensor_store[name]` in `view_tensor` and the
  `ValueError("One or both tensor names not found in the store.")` of
  `delete_tensor`;
* `overflow` is the `OverflowError` raised by `float(x)` on an int too large
  for an IEEE-754 double. -/
inductive Err where
  | shapeMismatch
  | reshapeError
  | invalidShape
  | notFound
  | overflow
deriving DecidableEq, Repr

/-- The in-memory `tensor_store` dict: name/value pairs in insertion order. -/
abbrev Store := List (String × Tensor)

/-- `dict.keys()` of the store, in order. -/
def storeKeys (s : Store) : List String := s.map Prod.fst

/-- `tensor_store.get(name)`: dictionary lookup. -/
def storeGet : Store → String → Option Tensor
  | [], _ => none
  | (k, t) :: rest, name => if k = name then some t else storeGet rest name

/-- `tensor_store[name] = t`: replace in place when the key exists, otherwise
append at the end (Python dict insertion-order semantics). -/
def storeSet (s : Store) (name : String) (t : Tensor) : Store :=
  if (storeGet s name).isSome then
    s.map (fun p => if p.1 = name then (name, t) else p)
  else
    s ++ [(name, t)]

/-- `tensor_store.pop(name)`: remove the entry with the given key. -/
def storeErase (s : Store) (name : String) : Store :=
  s.filter (fun p => decide (p.1 ≠ name))

/-- `np.array(values).reshape(shape)`.  NumPy treats every negative dimension
as an unknown to be inferred: more than one unknown is an error; with exactly
one unknown the known product must be positive and divide the array size, and
the unknown is replaced by the quotient; with no unknown the shape's product
must equal the array size.  Returns the resulting array (concrete shape plus
the flat values), or `none` when NumPy raises `ValueError`. -/
def npReshape (shape : List Int) (values : List ℚ) : Option Tensor :=
  let unknowns := (shape.filter (fun d => decide (d < 0))).length
  if 2 ≤ unknowns then
    none
  else if unknowns = 1 then
    let known := (shape.filter (fun d => decide (0 ≤ d))).prod
    if 0 < known ∧ known ∣ (values.length : Int) then
      some ⟨shape.map (fun d => if d < 0 then (values.length : Int) / known else d), values⟩
    else
      none
  else if shape.prod = (values.length : Int) then
    some ⟨shape, values⟩
  else
    none

/-- `create_tensor(shape, values, name)` (server.py lines 39-47), on inputs
that already are `int`s and `float`s (as delivered by the pydantic layer, whose
`int()`/`float()` coercions are then the identity): if
`len(values) != np.prod(shape)` raise `ValueError` before touching the store;
otherwise build the reshaped array, store it under `name`, and return it.
The result pairs the returned value (or the raised error) with the store after
the call. -/
def create_tensor (shape : List Int) (values : List ℚ) (name : String)
    (store : Store) : Except Err Tensor × Store :=
  if (values.length : Int) ≠ shape.prod then
    (Except.error Err.shapeMismatch, store)
  else
    match npReshape shape values with
    | some a => (Except.ok a, storeSet store name a)
    | none => (Except.error Err.reshapeError, store)

/-- `view_tensor(name)` (server.py lines 50-61): `return tensor_store[name]`,
raising `KeyError` when the name is absent. -/
def view_tensor (store : Store) (name : String) : Except Err Tensor :=
  match storeGet store name with
  | some t => Except.ok t
  | none => Except.error Err.notFound

/-- `list_tensor_names()` (server.py lines 64-72):
`"\n".join(tensor_store.keys())`. -/
def list_tensor_names (store : Store) : String :=
  String.intercalate "\n" (storeKeys store)

/-- `delete_tensor(name)` (server.py lines 75-93): raise `ValueError` when the
name is absent, otherwise `tensor_store.pop(name)` (the `try/except ValueError`
around `pop` is dead code: `pop` on a present key raises nothing). -/
def delete_tensor (name : String) (store : Store) : Except Err Unit × Store :=
  if (storeGet store name).isSome then
    (Except.ok (), storeErase store name)
  else
    (Except.error Err.notFound, store)

/-- Store states reachable from the initial empty `tensor_store = {}` by any
sequence of `create_tensor` and `delete_tensor` calls. -/
inductive Reachable : Store → Prop where
  | init : Reachable []
  | create (shape : List Int) (values : List ℚ) (name : String) (s : Store) :
      Reachable s → Reachable (create_tensor shape values name s).2
  | delete (name : String) (s : Store) :
      Reachable s → Reachable (delete_tensor name s).2

/-- A Python number as it may arrive in the `shape`/`values` arguments: an
`int`, or a `float` represented by its exact rational value. -/
inductive PyVal where
  | int (n : Int)
  | float (q : ℚ)
deriving DecidableEq, Repr

/-- Python `int(x)`: identity on ints; on a float, truncation toward zero of
its exact rational value. -/
def pyInt : PyVal → Int
  | PyVal.int n => n
  | PyVal.float q => q.num.tdiv q.den

/-- Round a natural number to at most 53 significant bits, round to nearest
with ties to even: the mantissa rounding step of int-to-double conversion.
Below `2^53` the value is kept exactly; otherwise the low `log2 a - 52` bits
are dropped, rounding up when the dropped part exceeds half of their range,
down when below, and to the even quotient on a tie. -/
def roundNat53 (a : Nat) : Nat :=
  if a < 2 ^ 53 then a
  else
    let e := a.log2 - 52
    let q := a / 2 ^ e
    let r := a % 2 ^ e
    let h := 2 ^ (e - 1)
    (if h < r then q + 1 else if r < h then q else q + q % 2) * 2 ^ e

/-- Python `float(n)` on an int: the nearest IEEE-754 double (ties to even),
as an exact rational; `none` models the `OverflowError` raised when the
rounded magnitude reaches `2^1024`. -/
def floatOfInt (n : Int) : Option ℚ :=
  if roundNat53 n.natAbs < 2 ^ 1024 then
    some (((n.sign * (roundNat53 n.natAbs : Int)) : Int) : ℚ)
  else
    none

/-- Python `float(x)`: identity on floats (already exact doubles); on an int,
conversion to the nearest double, which raises `OverflowError` for magnitudes
reaching `2^1024`. -/
def pyFloat : PyVal → Option ℚ
  | PyVal.int n => floatOfInt n
  | PyVal.float q => some q

/-- `values = [float(x) for x in values]`: elementwise coercion, propagating
the first `OverflowError` (`none`) if any. -/
def coerceValues : List PyVal → Option (List ℚ)
  | [] => some []
  | x :: xs =>
    match pyFloat x, coerceValues xs with
    | some q, some qs => some (q :: qs)
    | _, _ => none

/-- `create_tensor` exactly as written in the source (server.py lines 39-47,
main.py lines 41-49), including its first two lines
`shape = [int(x) for x in shape]` and `values = [float(x) for x in values]`:
the coercions run first, and validation and storage operate on the coerced
lists.  (`int(x)` on the finite floats modelled here never fails, so the
source's shape-then-values coercion order raises the same errors.) -/
def create_tensor_raw (rawShape : List PyVal) (rawValues : List PyVal)
    (name : String) (store : Store) : Except Err Tensor × Store :=
  match coerceValues rawValues with
  | none => (Except.error Err.overflow, store)
  | some values =>
    if (values.length : Int) ≠ (rawShape.map pyInt).prod then
      (Except.error Err.shapeMismatch, store)
    else
      match npReshape (rawShape.map pyInt) values with
      | some a => (Except.ok a, storeSet store name a)
      | none => (Except.error Err.reshapeError, store)

end SciComp

namespace SciComp.RefModel

/-!
A reference-level model of the same operations, for the aliasing behaviour
that the pure model above cannot express.  Python variables hold references:
`tensor_store` maps names to references (addresses) into a heap of ndarray
objects.  `view_tensor`'s body `return tensor_store[name]` hands out the stored
reference itself -- no `np.copy` appears in the source -- and ndarray element
assignment through any reference mutates the heap cell in place.
-/

/-- A reference to an ndarray object. -/
abbrev Addr := Nat

/-- The object heap: ndarray objects by address. -/
abbrev Heap := List (Addr × Tensor)

/-- The `tensor_store` dict at reference level: names bound to references. -/
abbrev RefStore := List (String × Addr)

/-- Dereference an address. -/
def heapGet : Heap → Addr → Option Tensor
  | [], _ => none
  | (a, t) :: rest, addr => if a = addr then some t else heapGet rest addr

/-- In-place mutation of the ndarray object at an address (e.g. `arr[0] = x`
performed through any reference to it). -/
def heapSet (h : Heap) (addr : Addr) (t : Tensor) : Heap :=
  h.map (fun p => if p.1 = addr then (addr, t) else p)

/-- `view_tensor(name)` at reference level: `return tensor_store[name]` returns
the stored reference itself, with no copy taken. -/
def view_tensor_ref (store : RefStore) (name : String) : Option Addr :=
  match store with
  | [] => none
  | (k, a) :: rest => if k = name then some a else view_tensor_ref rest name

/-- `delete_tensor(name)` at reference level: `tensor_store.pop(name)` removes
the name-to-reference binding and leaves the heap untouched. -/
def delete_tensor_ref (name : String) (store : RefStore) : RefStore :=
  store.filter (fun p => decide (p.1 ≠ name))

/-- The tensor currently stored under a name: follow the binding, then the
reference. -/
def storedTensor (h : Heap) (store : RefStore) (name : String) : Option Tensor :=
  match view_tensor_ref store name with
  | some a => heapGet h a
  | none => none

end SciComp.RefModel

namespace SciComp

/-! ### Store lemmas -/

lemma storeGet_isSome_iff_mem (s : Store) (n : String) :
    (storeGet s n).isSome ↔ n ∈ storeKeys s := by
  induction s with
  | nil => simp [storeGet, storeKeys]
  | cons p rest ih =>
    obtain ⟨k, t⟩ := p
    by_cases h : k = n
    · subst h; simp [storeGet, storeKeys]
    · simp [storeGet, storeKeys, h, ih, Ne.symm h]

lemma storeGet_eq_none_iff (s : Store) (n : String) :
    storeGet s n = none ↔ n ∉ storeKeys s := by
  rw [← storeGet_isSome_iff_mem]
  cases storeGet s n <;> simp

lemma storeGet_map_set_self (s : Store) (n : String) (t : Tensor)
    (h : (storeGet s n).isSome) :
    storeGet (s.map (fun p => if p.1 = n then (n, t) else p)) n = some t := by
  induction s with
  | nil => simp [storeGet] at h
  | cons p rest ih =>
    obtain ⟨k, u⟩ := p
    rw [List.map_cons]
    by_cases hk : k = n
    · subst hk
      rw [if_pos rfl]
      simp [storeGet]
    · rw [if_neg hk]
      have h2 : (storeGet rest n).isSome := by simpa [storeGet, hk] using h
      simp [storeGet, hk, ih h2]

lemma storeGet_map_set_other (s : Store) (n m : String) (t : Tensor)
    (h : m ≠ n) :
    storeGet (s.map (fun p => if p.1 = n then (n, t) else p)) m = storeGet s m := by
  induction s with
  | nil => rfl
  | cons p rest ih =>
    obtain ⟨k, u⟩ := p
    rw [List.map_cons]
    by_cases hk : k = n
    · subst hk
      rw [if_pos rfl]
      simp [storeGet, Ne.symm h, ih]
    · rw [if_neg hk]
      by_cases hkm : k = m <;> simp [storeGet, hkm, ih]

lemma storeGet_append (s l : Store) (n : String) :
    storeGet (s ++ l) n =
      match storeGet s n with
      | some v => some v
      | none => storeGet l n := by
  induction s with
  | nil => simp [storeGet]
  | cons p rest ih =>
    obtain ⟨k, u⟩ := p
    by_cases hk : k = n <;> simp [storeGet, hk, ih]

lemma storeGet_set_self (s : Store) (n : String) (t : Tensor) :
    storeGet (storeSet s n t) n = some t := by
  unfold storeSet
  by_cases h : (storeGet s n).isSome
  · rw [if_pos h]
    exact storeGet_map_set_self s n t h
  · rw [if_neg h, storeGet_append]
    have h0 : storeGet s n = none := Option.not_isSome_iff_eq_none.mp h
    rw [h0]
    simp [storeGet]

lemma storeGet_set_other (s : Store) (n m : String) (t : Tensor) (h : m ≠ n) :
    storeGet (storeSet s n t) m = storeGet s m := by
  unfold storeSet
  by_cases hs : (storeGet s n).isSome
  · rw [if_pos hs]
    exact storeGet_map_set_other s n m t h
  · rw [if_neg hs, storeGet_append]
    have : storeGet [(n, t)] m = none := by simp [storeGet, Ne.symm h]
    rw [this]
    cases storeGet s m <;> rfl

lemma storeKeys_map_set (s : Store) (n : String) (t : Tensor) :
    storeKeys (s.map (fun p => if p.1 = n then (n, t) else p)) = storeKeys s := by
  induction s with
  | nil => rfl
  | cons p rest ih =>
    obtain ⟨k, u⟩ := p
    by_cases hk : k = n
    · subst hk; simp only [storeKeys, List.map_cons] at ih ⊢
      simp [ih]
    · simp only [storeKeys, List.map_cons] at ih ⊢
      simp [hk, ih]

lemma storeKeys_set (s : Store) (n : String) (t : Tensor) :
    storeKeys (storeSet s n t) =
      if (storeGet s n).isSome then storeKeys s else storeKeys s ++ [n] := by
  unfold storeSet
  by_cases h : (storeGet s n).isSome
  · rw [if_pos h, if_pos h]
    exact storeKeys_map_set s n t
  · rw [if_neg h, if_neg h]
    simp [storeKeys]

lemma mem_storeSet (p : String × Tensor) (s : Store) (n : String) (t : Tensor)
    (hp : p ∈ storeSet s n t) : p = (n, t) ∨ p ∈ s := by
  unfold storeSet at hp
  by_cases h : (storeGet s n).isSome
  · rw [if_pos h] at hp
    obtain ⟨q, hq, he⟩ := List.mem_map.mp hp
    by_cases hq1 : q.1 = n
    · left; rw [← he]; simp [hq1]
    · right; rw [← he]; simp only [hq1, if_false]; exact hq
  · rw [if_neg h] at hp
    rcases List.mem_append.mp hp with h1 | h1
    · right; exact h1
    · left; simpa using h1

lemma storeGet_erase_self (s : Store) (n : String) :
    storeGet (storeErase s n) n = none := by
  induction s with
  | nil => rfl
  | cons p rest ih =>
    obtain ⟨k, u⟩ := p
    by_cases hk : k = n
    · simp [storeErase, List.filter_cons, hk] at ih ⊢
      exact ih
    · simp [storeErase, List.filter_cons, storeGet, hk] at ih ⊢
      exact ih

lemma map_replace_eq_self (s : Store) (n : String) (t : Tensor)
    (h : ∀ p ∈ s, p.1 = n → p = (n, t)) :
    s.map (fun p => if p.1 = n then (n, t) else p) = s := by
  induction s with
  | nil => rfl
  | cons p rest ih =>
    simp only [List.map_cons]
    by_cases hp1 : p.1 = n
    · rw [if_pos hp1, ih (fun q hq hqn => h q (List.mem_cons_of_mem p hq) hqn),
        ← h p (List.mem_cons_self p rest) hp1]
    · rw [if_neg hp1, ih (fun q hq hqn => h q (List.mem_cons_of_mem p hq) hqn)]

lemma storeSet_idem (s : Store) (n : String) (t : Tensor) :
    storeSet (storeSet s n t) n t = storeSet s n t := by
  have hsome : (storeGet (storeSet s n t) n).isSome := by
    rw [storeGet_set_self]; rfl
  have hrepl : ∀ p ∈ storeSet s n t, p.1 = n → p = (n, t) := by
    intro p hp hpn
    rcases mem_storeSet p s n t hp with h | h
    · exact h
    · by_cases hs : (storeGet s n).isSome
      · -- in the replace branch every key-n entry was rewritten to (n, t)
        unfold storeSet at hp
        rw [if_pos hs] at hp
        obtain ⟨q, hq, he⟩ := List.mem_map.mp hp
        by_cases hq1 : q.1 = n
        · rw [← he]; simp [hq1]
        · exfalso
          rw [← he] at hpn
          simp [hq1] at hpn
      · exfalso
        have h0 : storeGet s n = none := Option.not_isSome_iff_eq_none.mp hs
        have hnm : n ∉ storeKeys s := (storeGet_eq_none_iff s n).mp h0
        exact hnm (List.mem_map.mpr ⟨p, h, hpn⟩)
  conv_lhs => rw [storeSet, if_pos hsome]
  exact map_replace_eq_self _ n t hrepl

/-! ### Reshape and creation lemmas -/

lemma prod_eq_filter_neg_mul_filter_nonneg (l : List Int) :
    l.prod = (l.filter (fun d => decide (d < 0))).prod *
      (l.filter (fun d => decide (0 ≤ d))).prod := by
  induction l with
  | nil => simp
  | cons a l ih =>
    by_cases ha : a < 0
    · have ha2 : ¬(0 ≤ a) := not_le.mpr ha
      have e1 : (a :: l).filter (fun d => decide (d < 0)) =
          a :: l.filter (fun d => decide (d < 0)) := by simp [List.filter_cons, ha]
      have e2 : (a :: l).filter (fun d => decide (0 ≤ d)) =
          l.filter (fun d => decide (0 ≤ d)) := by simp [List.filter_cons, ha2]
      rw [List.prod_cons, e1, e2, List.prod_cons, ih]
      ring
    · have ha2 : 0 ≤ a := not_lt.mp ha
      have e1 : (a :: l).filter (fun d => decide (d < 0)) =
          l.filter (fun d => decide (d < 0)) := by simp [List.filter_cons, ha]
      have e2 : (a :: l).filter (fun d => decide (0 ≤ d)) =
          a :: l.filter (fun d => decide (0 ≤ d)) := by simp [List.filter_cons, ha2]
      rw [List.prod_cons, e1, e2, List.prod_cons, ih]
      ring

/-- Under the guard `np.prod(shape) == len(values)` that `create_tensor`
checks first, a successful reshape never goes through dimension inference:
its result is exactly `shape` with the given flat values. -/
lemma npReshape_eq_of_prod_eq (shape : List Int) (values : List ℚ) (t : Tensor)
    (h : shape.prod = (values.length : Int))
    (hr : npReshape shape values = some t) :
    t = ⟨shape, values⟩ := by
  unfold npReshape at hr
  by_cases h2 : 2 ≤ (shape.filter (fun d => decide (d < 0))).length
  · simp [h2] at hr
  · by_cases h1 : (shape.filter (fun d => decide (d < 0))).length = 1
    · exfalso
      obtain ⟨d, hd⟩ := List.length_eq_one.mp h1
      have hdneg : d < 0 := by
        have hdm : d ∈ shape.filter (fun d => decide (d < 0)) := by
          rw [hd]; exact List.mem_singleton_self d
        simpa using List.of_mem_filter hdm
      by_cases hc : 0 < (shape.filter (fun d => decide (0 ≤ d))).prod ∧
          (shape.filter (fun d => decide (0 ≤ d))).prod ∣ (values.length : Int)
      · have hneg : shape.prod < 0 := by
          rw [prod_eq_filter_neg_mul_filter_nonneg shape, hd, List.prod_singleton]
          exact mul_neg_of_neg_of_pos hdneg hc.1
        have hnn : (0 : Int) ≤ shape.prod := h ▸ Int.natCast_nonneg _
        omega
      · simp [h2, h1, hc] at hr
    · simp only [h2, h1, if_false] at hr
      rw [if_pos h] at hr
      exact (Option.some_injective _ hr).symm

/-- When every dimension is nonnegative and the sizes agree, `create_tensor`
succeeds, returns the array `⟨shape, values⟩`, and stores it under `name`. -/
lemma create_tensor_ok_of_nonneg (shape : List Int) (values : List ℚ)
    (name : String) (store : Store)
    (hnn : ∀ d ∈ shape, 0 ≤ d) (hlen : (values.length : Int) = shape.prod) :
    create_tensor shape values name store =
      (Except.ok ⟨shape, values⟩, storeSet store name ⟨shape, values⟩) := by
  have hfilter : shape.filter (fun d => decide (d < 0)) = [] := by
    rw [List.filter_eq_nil_iff]
    intro d hd
    simpa using not_lt.mpr (hnn d hd)
  have hresh : npReshape shape values = some ⟨shape, values⟩ := by
    unfold npReshape
    simp [hfilter, hlen.symm]
  unfold create_tensor
  rw [if_neg (not_not_intro hlen), hresh]

/-- Case analysis of the store left by a `create_tensor` call: either nothing
changed (an error was raised before any mutation), or the guard held and the
new array was stored under `name`. -/
lemma create_tensor_snd_cases (shape : List Int) (values : List ℚ)
    (name : String) (store : Store) :
    (create_tensor shape values name store).2 = store ∨
      ((values.length : Int) = shape.prod ∧
        (create_tensor shape values name store).2 =
          storeSet store name ⟨shape, values⟩) := by
  unfold create_tensor
  by_cases hlen : (values.length : Int) ≠ shape.prod
  · rw [if_pos hlen]
    left; rfl
  · push_neg at hlen
    rw [if_neg (not_not_intro hlen)]
    cases hres : npReshape shape values with
    | none => left; rfl
    | some t =>
      right
      refine ⟨hlen, ?_⟩
      rw [npReshape_eq_of_prod_eq shape values t hlen.symm hres]

/-! ### Coercion lemmas -/

lemma roundNat53_of_lt (a : Nat) (h : a < 2 ^ 53) : roundNat53 a = a := by
  unfold roundNat53
  rw [if_pos h]

/-- Below `2^53`, `float()` of an int is exact. -/
lemma pyFloat_int_exact (n : Int) (h : n.natAbs < 2 ^ 53) :
    pyFloat (PyVal.int n) = some ((n : ℚ)) := by
  have h1 : roundNat53 n.natAbs = n.natAbs := roundNat53_of_lt _ h
  have h2 : roundNat53 n.natAbs < 2 ^ 1024 := by
    rw [h1]
    exact lt_trans h (Nat.pow_lt_pow_right one_lt_two (by norm_num))
  show floatOfInt n = some ((n : ℚ))
  unfold floatOfInt
  rw [if_pos h2, h1, Int.sign_mul_natAbs]

lemma coerceValues_int_exact (vs : List Int) (h : ∀ v ∈ vs, v.natAbs < 2 ^ 53) :
    coerceValues (vs.map PyVal.int) =
      some (vs.map (fun n : Int => (n : ℚ))) := by
  induction vs with
  | nil => rfl
  | cons v vs ih =>
    simp only [List.map_cons]
    unfold coerceValues
    rw [pyFloat_int_exact v (h v (List.mem_cons_self v vs)),
      ih (fun w hw => h w (List.mem_cons_of_mem v hw))]

/-! ### The reachable-state invariant -/

/-- Every store state reachable by `create_tensor`/`delete_tensor` calls keeps
the dict well formed: each stored array's flat length equals its shape's
product, and the keys are pairwise distinct. -/
lemma reachable_inv (s : Store) (h : Reachable s) :
    (∀ p ∈ s, ((p.2.values.length : Int) = p.2.shape.prod)) ∧
      (storeKeys s).Nodup := by
  induction h with
  | init => simp [storeKeys]
  | create shape values name s0 hr ih =>
    rcases create_tensor_snd_cases shape values name s0 with h | ⟨hlen, h⟩
    · rw [h]; exact ih
    · rw [h]
      constructor
      · intro p hp
        rcases mem_storeSet p s0 name ⟨shape, values⟩ hp with h1 | h1
        · rw [h1]
          exact hlen
        · exact ih.1 p h1
      · rw [storeKeys_set]
        by_cases hs : (storeGet s0 name).isSome
        · rw [if_pos hs]; exact ih.2
        · rw [if_neg hs]
          have hnm : name ∉ storeKeys s0 :=
            (storeGet_eq_none_iff s0 name).mp (Option.not_isSome_iff_eq_none.mp hs)
          simp [List.nodup_append, ih.2, hnm]
  | delete name s0 hr ih =>
    unfold delete_tensor
    by_cases hs : (storeGet s0 name).isSome
    · rw [if_pos hs]
      constructor
      · intro p hp
        exact ih.1 p (List.mem_of_mem_filter hp)
      · exact List.Nodup.sublist (List.Sublist.map _ (List.filter_sublist _)) ih.2
    · rw [if_neg hs]; exact ih

/-! ### The claims -/

/-- C1: for every non-empty shape of positive dimensions and every value list
whose length equals the shape's product, `create_tensor` followed by
`view_tensor` on the same name returns a tensor whose shape equals `shape` and
whose flattened values equal `values`. -/
theorem create_view_roundtrip (shape : List Int) (values : List ℚ)
    (name : String) (store : Store)
    (hne : shape ≠ []) (hpos : ∀ d ∈ shape, 0 < d)
    (hlen : (values.length : Int) = shape.prod) :
    ∃ t : Tensor,
      (create_tensor shape values name store).1 = Except.ok t ∧
      view_tensor (create_tensor shape values name store).2 name = Except.ok t ∧
      t.shape = shape ∧ t.values = values := by
  have hok := create_tensor_ok_of_nonneg shape values name store
    (fun d hd => le_of_lt (hpos d hd)) hlen
  refine ⟨⟨shape, values⟩, ?_, ?_, rfl, rfl⟩
  · rw [hok]
  · rw [hok]
    simp [view_tensor, storeGet_set_self]

/-- Witness for C1 at shape `[2]`, values `[1, 2]`, name `"a"`, empty store. -/
theorem create_view_roundtrip_witness :
    ∃ t : Tensor,
      (create_tensor [2] [1, 2] "a" []).1 = Except.ok t ∧
      view_tensor (create_tensor [2] [1, 2] "a" []).2 "a" = Except.ok t ∧
      t.shape = [2] ∧ t.values = [1, 2] :=
  create_view_roundtrip [2] [1, 2] "a" [] (by decide) (by decide) (by decide)

/-- C2: whenever `len(values) ≠ prod(shape)`, `create_tensor` raises the
shape-mismatch `ValueError` and returns the store exactly as it was: the name
is not inserted and any pre-existing tensor under it is untouched. -/
theorem create_tensor_shape_mismatch (shape : List Int) (values : List ℚ)
    (name : String) (store : Store)
    (h : (values.length : Int) ≠ shape.prod) :
    create_tensor shape values name store =
      (Except.error Err.shapeMismatch, store) := by
  unfold create_tensor
  rw [if_pos h]

/-- Witness for C2: one value against shape `[2]`, with a pre-existing tensor
under the same name left untouched. -/
theorem create_tensor_shape_mismatch_witness :
    create_tensor [2] [1] "a" [("a", ⟨[1], [5]⟩)] =
      (Except.error Err.shapeMismatch, [("a", ⟨[1], [5]⟩)]) :=
  create_tensor_shape_mismatch [2] [1] "a" [("a", ⟨[1], [5]⟩)] (by decide)

/-- C3 counterexample: shape `[0]` contains a dimension ≤ 0, yet
`create_tensor` fails with the shape-mismatch `ValueError` -- the same error as
the length/product check -- and not with any distinct `InvalidShape` error. -/
theorem create_zero_dim_not_invalidShape :
    (create_tensor [0] [1] "a" []).1 = Except.error Err.shapeMismatch ∧
      Err.shapeMismatch ≠ Err.invalidShape := by
  exact ⟨rfl, by decide⟩

/-- C3 (amended): the code has no `InvalidShape` error path at all; no
`create_tensor` call ever produces such an error, and a shape containing a
dimension ≤ 0 is subject only to the length/product check (and to NumPy's own
reshape errors). -/
theorem create_tensor_never_invalidShape (shape : List Int) (values : List ℚ)
    (name : String) (store : Store) :
    (create_tensor shape values name store).1 ≠ Except.error Err.invalidShape := by
  unfold create_tensor
  by_cases hlen : (values.length : Int) ≠ shape.prod
  · rw [if_pos hlen]; simp
  · rw [if_neg hlen]
    cases npReshape shape values <;> simp

/-- C4: `delete_tensor` on an absent name fails with NotFound and leaves the
store unchanged, `view_tensor` on an absent name fails with NotFound, and
after a successful `delete_tensor` the deleted name views as NotFound. -/
theorem delete_view_notFound (name : String) (store : Store) :
    (storeGet store name = none →
        delete_tensor name store = (Except.error Err.notFound, store) ∧
        view_tensor store name = Except.error Err.notFound) ∧
    (∀ t, storeGet store name = some t →
        (delete_tensor name store).1 = Except.ok () ∧
        view_tensor (delete_tensor name store).2 name =
          Except.error Err.notFound) := by
  constructor
  · intro h
    have hs : ¬((storeGet store name).isSome = true) := by rw [h]; simp
    constructor
    · unfold delete_tensor
      rw [if_neg hs]
    · simp [view_tensor, h]
  · intro t ht
    have hs : (storeGet store name).isSome := by rw [ht]; rfl
    constructor
    · unfold delete_tensor
      rw [if_pos hs]
    · unfold delete_tensor
      rw [if_pos hs]
      simp [view_tensor, storeGet_erase_self]

/-- Witness for C4: an absent name on the empty store, and a present name
deleted from a one-entry store. -/
theorem delete_view_notFound_witness :
    (delete_tensor "a" [] = (Except.error Err.notFound, []) ∧
      view_tensor [] "a" = Except.error Err.notFound) ∧
    ((delete_tensor "a" [("a", ⟨[1], [7]⟩)]).1 = Except.ok () ∧
      view_tensor (delete_tensor "a" [("a", ⟨[1], [7]⟩)]).2 "a" =
        Except.error Err.notFound) :=
  ⟨(delete_view_notFound "a" []).1 rfl,
   (delete_view_notFound "a" [("a", ⟨[1], [7]⟩)]).2 ⟨[1], [7]⟩ rfl⟩

/-- C5: in every store state reachable by any sequence of `create_tensor` and
`delete_tensor` calls, every stored tensor's flattened length equals the
product of its shape. -/
theorem stored_tensors_wellformed (s : Store) (h : Reachable s) :
    ∀ n t, (n, t) ∈ s → (t.values.length : Int) = t.shape.prod := by
  intro n t hmem
  exact (reachable_inv s h).1 (n, t) hmem

/-- Witness for C5: the state reached by one successful creation. -/
theorem stored_tensors_wellformed_witness :
    (((⟨[2], [1, 2]⟩ : Tensor).values.length : Int) =
      (⟨[2], [1, 2]⟩ : Tensor).shape.prod) :=
  stored_tensors_wellformed (create_tensor [2] [1, 2] "b" []).2
    (Reachable.create [2] [1, 2] "b" [] Reachable.init) "b" ⟨[2], [1, 2]⟩
    (by decide)

/-- C6: a valid creation under a name already present succeeds and overwrites
that entry, and replaying the identical call leaves both the returned value
and the store unchanged (idempotent-on-replay). -/
theorem create_overwrite_replay (shape : List Int) (values : List ℚ)
    (name : String) (store : Store)
    (hpos : ∀ d ∈ shape, 0 < d)
    (hlen : (values.length : Int) = shape.prod)
    (hmem : name ∈ storeKeys store) :
    ∃ t : Tensor,
      create_tensor shape values name store = (Except.ok t, storeSet store name t) ∧
      storeGet (create_tensor shape values name store).2 name = some t ∧
      create_tensor shape values name (create_tensor shape values name store).2 =
        create_tensor shape values name store := by
  have hok := create_tensor_ok_of_nonneg shape values name store
    (fun d hd => le_of_lt (hpos d hd)) hlen
  refine ⟨⟨shape, values⟩, hok, ?_, ?_⟩
  · rw [hok]
    exact storeGet_set_self store name ⟨shape, values⟩
  · have h2 : (create_tensor shape values name store).2 =
        storeSet store name ⟨shape, values⟩ := by rw [hok]
    have hok2 := create_tensor_ok_of_nonneg shape values name
      (storeSet store name ⟨shape, values⟩) (fun d hd => le_of_lt (hpos d hd)) hlen
    rw [h2, hok2, storeSet_idem, hok]

/-- Witness for C6: overwriting the single entry `"a"`. -/
theorem create_overwrite_replay_witness :
    ∃ t : Tensor,
      create_tensor [1] [9] "a" [("a", ⟨[1], [5]⟩)] =
        (Except.ok t, storeSet [("a", ⟨[1], [5]⟩)] "a" t) ∧
      storeGet (create_tensor [1] [9] "a" [("a", ⟨[1], [5]⟩)]).2 "a" = some t ∧
      create_tensor [1] [9] "a" (create_tensor [1] [9] "a" [("a", ⟨[1], [5]⟩)]).2 =
        create_tensor [1] [9] "a" [("a", ⟨[1], [5]⟩)] :=
  create_overwrite_replay [1] [9] "a" [("a", ⟨[1], [5]⟩)]
    (by decide) (by decide) (by decide)

/-- C7: in every reachable store state the listing is exactly the
newline-join of the store's names, the names are pairwise distinct, and a name
is listed iff it is present in the store.  (`list_tensor_names` is a pure
function of the state, so two calls on the same state trivially return the
identical string.) -/
theorem list_tensor_names_exact (s : Store) (h : Reachable s) :
    (storeKeys s).Nodup ∧
    list_tensor_names s = String.intercalate "\n" (storeKeys s) ∧
    (∀ n, n ∈ storeKeys s ↔ (storeGet s n).isSome) := by
  refine ⟨(reachable_inv s h).2, rfl, ?_⟩
  intro n
  exact (storeGet_isSome_iff_mem s n).symm

/-- Witness for C7: the state reached by one creation, queried at `"x"`. -/
theorem list_tensor_names_exact_witness :
    (storeKeys (create_tensor [1] [3] "x" []).2).Nodup ∧
    ("x" ∈ storeKeys (create_tensor [1] [3] "x" []).2 ↔
      (storeGet (create_tensor [1] [3] "x" []).2 "x").isSome) :=
  ⟨(list_tensor_names_exact _ (Reachable.create [1] [3] "x" [] Reachable.init)).1,
   (list_tensor_names_exact _ (Reachable.create [1] [3] "x" [] Reachable.init)).2.2 "x"⟩

/-- C8: the body of `view_tensor` is `return tensor_store[name]`: it hands out
the stored reference itself, so mutating the returned array changes the stored
tensor, contrary to the claimed copy-out semantics.  (Deletion, by contrast,
only removes the name binding and leaves previously obtained references
usable.)  Evaluated at the failing input: one tensor `⟨[1], [1]⟩` stored under
`"a"` at address 0, then element assignment through the returned reference. -/
theorem view_tensor_live_reference :
    RefModel.view_tensor_ref [("a", 0)] "a" = some 0 ∧
    RefModel.storedTensor [(0, ⟨[1], [1]⟩)] [("a", 0)] "a" = some ⟨[1], [1]⟩ ∧
    RefModel.storedTensor (RefModel.heapSet [(0, ⟨[1], [1]⟩)] 0 ⟨[1], [2]⟩)
      [("a", 0)] "a" = some ⟨[1], [2]⟩ ∧
    (⟨[1], [2]⟩ : Tensor) ≠ ⟨[1], [1]⟩ ∧
    RefModel.delete_tensor_ref "a" [("a", 0)] = [] ∧
    RefModel.heapGet [(0, ⟨[1], [1]⟩)] 0 = some ⟨[1], [1]⟩ := by
  decide

/-- C9: a `create_tensor` call changes no store entry other than the one under
its own name. -/
theorem create_preserves_other_names (shape : List Int) (values : List ℚ)
    (name : String) (store : Store) (m : String) (hm : m ≠ name) :
    storeGet (create_tensor shape values name store).2 m = storeGet store m := by
  rcases create_tensor_snd_cases shape values name store with h | ⟨hlen, h⟩
  · rw [h]
  · rw [h]
    exact storeGet_set_other store name m ⟨shape, values⟩ hm

/-- Witness for C9: creating `"a"` leaves the entry `"b"` untouched. -/
theorem create_preserves_other_names_witness :
    storeGet (create_tensor [1] [9] "a" [("b", ⟨[1], [5]⟩)]).2 "b" =
      storeGet [("b", ⟨[1], [5]⟩)] "b" :=
  create_preserves_other_names [1] [9] "a" [("b", ⟨[1], [5]⟩)] "b" (by decide)

/-- C10: `create_tensor` coerces `shape` elementwise with `int()` and `values`
elementwise with `float()` before anything else, so the length/product check
and the stored tensor are those of the coerced lists; `float()` is exact on
ints of magnitude below `2^53`, so such integer-valued `values` are accepted
and stored as exactly their float coercions. -/
theorem create_tensor_coerces_before_validation
    (rawShape rawValues : List PyVal) (name : String) (store : Store) :
    (∀ values : List ℚ, coerceValues rawValues = some values →
      create_tensor_raw rawShape rawValues name store =
        create_tensor (rawShape.map pyInt) values name store) ∧
    (∀ n : Int, n.natAbs < 2 ^ 53 → pyFloat (PyVal.int n) = some ((n : ℚ))) ∧
    (∀ (ns vs : List Int), (∀ d ∈ ns, 0 < d) →
      (vs.length : Int) = ns.prod →
      (∀ v ∈ vs, v.natAbs < 2 ^ 53) →
      create_tensor_raw (ns.map PyVal.int) (vs.map PyVal.int) name store =
        (Except.ok ⟨ns, vs.map (fun n : Int => (n : ℚ))⟩,
          storeSet store name ⟨ns, vs.map (fun n : Int => (n : ℚ))⟩)) := by
  refine ⟨?_, pyFloat_int_exact, ?_⟩
  · intro values h
    unfold create_tensor_raw
    rw [h]
    rfl
  · intro ns vs hpos hlen hbound
    have e1 : (ns.map PyVal.int).map pyInt = ns := by
      rw [List.map_map]
      have hcomp : (pyInt ∘ PyVal.int) = id := funext fun a => rfl
      rw [hcomp, List.map_id]
    have heq : create_tensor_raw (ns.map PyVal.int) (vs.map PyVal.int) name store =
        create_tensor ((ns.map PyVal.int).map pyInt)
          (vs.map (fun n : Int => (n : ℚ))) name store := by
      unfold create_tensor_raw
      rw [coerceValues_int_exact vs hbound]
      rfl
    rw [heq, e1]
    exact create_tensor_ok_of_nonneg ns _ name store
      (fun d hd => le_of_lt (hpos d hd))
      (by rw [List.length_map]; exact hlen)

/-- Witness for C10: integer inputs `shape = [2]`, `values = [3, 4]` are
accepted and stored as floats. -/
theorem create_tensor_coerces_before_validation_witness :
    create_tensor_raw [PyVal.int 2] [PyVal.int 3, PyVal.int 4] "a" [] =
      (Except.ok ⟨[2], ([3, 4] : List Int).map (fun n : Int => (n : ℚ))⟩,
        storeSet [] "a" ⟨[2], ([3, 4] : List Int).map (fun n : Int => (n : ℚ))⟩) :=
  (create_tensor_coerces_before_validation [PyVal.int 2]
    [PyVal.int 3, PyVal.int 4] "a" []).2.2 [2] [3, 4]
    (by decide) (by decide) (by decide)

end SciComp
